import Mathlib

/-!
Verification of the medicine-reminder bot core (src/index.js).

The JavaScript source is shallowly embedded: the process-local
pending-reminder tracker (a JS Map plus uncancelled setTimeout deletions)
becomes an explicit state record with a list of outstanding timer tasks;
the per-user profile mutators (takeMedicine, refillMedicine,
deleteMedicine, addMedicine, setTime) become pure functions threading the
profile; the Redis-backed blob store (loadData / saveData / saveUser)
becomes a function over an association list together with explicit
read/write failure flags.  Timestamps are naturals counting milliseconds;
pill counts are integers (JS numbers used integrally).
-/

namespace MedBot

/-! ## Association-list maps

JS `Map` and plain-object semantics: `set`/assignment keeps an existing
key at its position and replaces the value, otherwise appends;
`delete` removes the (unique) binding; lookup returns the bound value.
-/

def mapGet {α : Type} : List (String × α) → String → Option α
  | [], _ => none
  | (k', v) :: rest, k => if k' == k then some v else mapGet rest k

def mapSet {α : Type} : List (String × α) → String → α → List (String × α)
  | [], k, v => [(k, v)]
  | (k', v') :: rest, k, v =>
    if k' == k then (k, v) :: rest else (k', v') :: mapSet rest k v

def mapErase {α : Type} : List (String × α) → String → List (String × α)
  | [], _ => []
  | (k', v') :: rest, k =>
    if k' == k then rest else (k', v') :: mapErase rest k

/-! ## Pending-reminder tracker (src/index.js lines 75-102)

`pendingReminders` is a `Map` from userId to `{timeSlot, timestamp}`.
`setPendingReminder` inserts the entry and schedules an uncancelled
`setTimeout` that deletes the user's entry 30 minutes later.  We model the
outstanding setTimeout callbacks as `TimerTask`s; `advanceTo now` runs
every callback whose fire time has been reached (each one deletes its
user's current entry, whatever it is) and keeps the rest pending.
-/

def expiryMs : Nat := 30 * 60 * 1000

def minuteMs : Nat := 60 * 1000

structure PendingEntry where
  timeSlot : Nat
  timestamp : Nat
deriving DecidableEq, Repr

structure TimerTask where
  uid : String
  fireAt : Nat
deriving DecidableEq, Repr

structure TrackerState where
  pending : List (String × PendingEntry)
  timers : List TimerTask
deriving DecidableEq, Repr

def setPendingReminder (s : TrackerState) (now : Nat) (uid : String)
    (timeSlot : Nat) : TrackerState :=
  { pending := mapSet s.pending uid { timeSlot := timeSlot, timestamp := now },
    timers := s.timers ++ [{ uid := uid, fireAt := now + expiryMs }] }

def advanceTo (s : TrackerState) (now : Nat) : TrackerState :=
  { pending :=
      (s.timers.filter (fun t => decide (t.fireAt ≤ now))).foldl
        (fun p t => mapErase p t.uid) s.pending,
    timers := s.timers.filter (fun t => decide (now < t.fireAt)) }

def getPendingReminder (s : TrackerState) (now : Nat) (uid : String) :
    Option PendingEntry × TrackerState :=
  match mapGet s.pending uid with
  | none => (none, s)
  | some p =>
    if expiryMs < now - p.timestamp then
      (none, { s with pending := mapErase s.pending uid })
    else
      (some p, s)

/-! ## Profile data model (src/index.js lines 50-66, 104-223)

`createdAt` is stored in the source as an ISO string of the creation
instant; it is modelled by the millisecond timestamp itself.  Pill counts
are JS numbers used integrally, modelled as `Int`.  `alertedMedicines` is
a plain JS object keyed by medicine id.
-/

structure Medicine where
  id : String
  name : String
  totalPills : Int
  remainingPills : Int
  pillsPerDose : Int
  timeSlot : Nat
  createdAt : Nat
deriving DecidableEq, Repr

structure BotSettings where
  time1 : String
  time2 : String
deriving DecidableEq, Repr

structure UserProfile where
  medicines : List Medicine
  settings : BotSettings
  alertedMedicines : List (String × Nat)
deriving DecidableEq, Repr

def defaultSettings : BotSettings :=
  { time1 := "08:00", time2 := "20:00" }

def defaultProfile : UserProfile :=
  { medicines := [], settings := defaultSettings, alertedMedicines := [] }

/-- JS truthiness test used on ledger entries: `!user.alertedMedicines[k]`
is true when the key is absent and when the stored number is `0`. -/
def isFalsyLedger : Option Nat → Bool
  | none => true
  | some n => n == 0

/-- JS comparison `user.alertedMedicines[k] < 2`: `undefined < 2` is
`false` (NaN comparison), a stored number compares numerically. -/
def ledgerLtTwo : Option Nat → Bool
  | none => false
  | some n => decide (n < 2)

/-- In-place mutation of the first list element satisfying `p`
(the object that `Array.prototype.find` / `findIndex` located). -/
def updateFirst (p : Medicine → Bool) (f : Medicine → Medicine) :
    List Medicine → List Medicine
  | [] => []
  | m :: rest => if p m then f m :: rest else m :: updateFirst p f rest

/-- `Array.prototype.splice` at the index located by `findIndex`. -/
def removeFirst (p : Medicine → Bool) : List Medicine → List Medicine
  | [] => []
  | m :: rest => if p m then rest else m :: removeFirst p rest

/-! ## Case-insensitive substring matching (lines 168-169, 205-206, 488)

`m.name.toLowerCase().includes(q.toLowerCase())`.  Lowercasing is
`String.toLower` (ASCII letters are mapped, Thai characters — which have
no case — are untouched, as in the source's data).  `includes` is
contiguous-substring containment over the character sequence.
-/

def startsWithList : List Char → List Char → Bool
  | _, [] => true
  | [], _ :: _ => false
  | a :: restA, b :: restB => a == b && startsWithList restA restB

def containsList : List Char → List Char → Bool
  | [], needle => needle.isEmpty
  | c :: rest, needle =>
    startsWithList (c :: rest) needle || containsList rest needle

/-- The character sequence of `s.toLowerCase()` (ASCII letters mapped,
caseless scripts such as Thai untouched). -/
def lowerData (s : String) : List Char :=
  s.data.map Char.toLower

def matchesName (m : Medicine) (q : String) : Bool :=
  containsList (lowerData m.name) (lowerData q)

/-! ## Profile mutators (src/index.js lines 104-223)

Each mutator in the source loads the profile, mutates it and saves it
back through `saveUser`; in the embedding each is a pure function from
the profile to the result together with the profile that gets saved
(on early-return failure paths no save happens, so the input profile is
returned unchanged).  Numeric command arguments come from `\d+` regex
groups through `parseInt`, hence `Nat` inputs.
-/

def msgNotFound : String := "ไม่พบยาที่ระบุ"

def msgDepletedPre : String := "❌ ยา "

def msgDepletedSuf : String := " หมดแล้ว!"

def msgDepleted (name : String) : String :=
  msgDepletedPre ++ name ++ msgDepletedSuf

/-- `addMedicine` (lines 107-124): the fresh id interpolates `Date.now()`. -/
def addMedicine (u : UserProfile) (now : Nat) (name : String)
    (totalPills pillsPerDose timeSlot : Nat) : Medicine × UserProfile :=
  let med : Medicine :=
    { id := "med_" ++ toString now, name := name,
      totalPills := (totalPills : Int), remainingPills := (totalPills : Int),
      pillsPerDose := (pillsPerDose : Int), timeSlot := timeSlot,
      createdAt := now }
  (med, { u with medicines := u.medicines ++ [med] })

inductive TakeResult where
  | failure (message : String)
  | success (medicine : Medicine) (lowStockAlert : Option (Medicine × Nat))
deriving DecidableEq, Repr

/-- `takeMedicine` (lines 127-163): find the medicine by id, reject on
missing or insufficient stock, otherwise decrement and compute the
threshold alert against the `alertedMedicines` ledger. -/
def takeMedicine (u : UserProfile) (medicineId : String) :
    TakeResult × UserProfile :=
  match u.medicines.find? (fun m => m.id == medicineId) with
  | none => (TakeResult.failure msgNotFound, u)
  | some med =>
    if med.remainingPills < med.pillsPerDose then
      (TakeResult.failure (msgDepleted med.name), u)
    else
      let med' : Medicine :=
        { med with remainingPills := med.remainingPills - med.pillsPerDose }
      let v : Option Nat := mapGet u.alertedMedicines medicineId
      let alertLedger : Option (Medicine × Nat) × List (String × Nat) :=
        if decide (med'.remainingPills ≤ 5) && (isFalsyLedger v || ledgerLtTwo v) then
          (some (med', 2), mapSet u.alertedMedicines medicineId 2)
        else if decide (med'.remainingPills ≤ 10) &&
            decide (5 < med'.remainingPills) && isFalsyLedger v then
          (some (med', 1), mapSet u.alertedMedicines medicineId 1)
        else
          (none, u.alertedMedicines)
      (TakeResult.success med' alertLedger.1,
       { u with
          medicines := updateFirst (fun m => m.id == medicineId)
            (fun _ => med') u.medicines,
          alertedMedicines := alertLedger.2 })

/-- `refillMedicine` (lines 166-186): resolve by case-insensitive name
containment, add the amount, and drop the alert ledger entry (the source
guards the `delete` with a truthiness test on the stored entry). -/
def refillMedicine (u : UserProfile) (medicineName : String) (amount : Nat) :
    Option Medicine × UserProfile :=
  match u.medicines.find? (fun m => matchesName m medicineName) with
  | none => (none, u)
  | some med =>
    let med' : Medicine :=
      { med with remainingPills := med.remainingPills + (amount : Int) }
    (some med',
     { u with
        medicines := updateFirst (fun m => matchesName m medicineName)
          (fun _ => med') u.medicines,
        alertedMedicines :=
          if isFalsyLedger (mapGet u.alertedMedicines med.id) then
            u.alertedMedicines
          else
            mapErase u.alertedMedicines med.id })

/-- `setTime` (lines 189-200). -/
def setTime (u : UserProfile) (slot : Nat) (time : String) : UserProfile :=
  if slot == 1 then
    { u with settings := { u.settings with time1 := time } }
  else
    { u with settings := { u.settings with time2 := time } }

/-- `deleteMedicine` (lines 203-223): splice out the first medicine whose
name contains the query, and drop its alert ledger entry. -/
def deleteMedicine (u : UserProfile) (medicineName : String) :
    Option Medicine × UserProfile :=
  match u.medicines.find? (fun m => matchesName m medicineName) with
  | none => (none, u)
  | some deleted =>
    (some deleted,
     { u with
        medicines := removeFirst (fun m => matchesName m medicineName)
          u.medicines,
        alertedMedicines :=
          if isFalsyLedger (mapGet u.alertedMedicines deleted.id) then
            u.alertedMedicines
          else
            mapErase u.alertedMedicines deleted.id })

/-- The take-by-name text command (lines 485-510): resolve the medicine by
case-insensitive name containment and apply `takeMedicine` to its id. -/
def takeByName (u : UserProfile) (medicineName : String) :
    Option (TakeResult × UserProfile) :=
  match u.medicines.find? (fun m => matchesName m medicineName) with
  | none => none
  | some med => some (takeMedicine u med.id)

/-! ## Slot-wide acknowledgment (src/index.js lines 358-403)

`processTakeMedicine` filters the medicines of the given slot that still
have stock, loops `takeMedicine` over them (each call re-loads and saves
the profile, i.e. threads the profile state), collects the successfully
recorded medicines and their low-stock alerts in iteration order, and
deletes the user's pending entry — but returns early, without deleting,
when no medicine qualifies.
-/

def slotPred (slot : Nat) (m : Medicine) : Bool :=
  m.timeSlot == slot && decide (0 < m.remainingPills)

structure ProcessResult where
  records : List Medicine
  alerts : List (Medicine × Nat)
  replied : Bool
deriving DecidableEq, Repr

def takeLoop : List Medicine → UserProfile →
    List Medicine × List (Medicine × Nat) × UserProfile
  | [], u => ([], [], u)
  | med :: rest, u =>
    match takeMedicine u med.id with
    | (TakeResult.success m a, u') =>
      let r := takeLoop rest u'
      (m :: r.1, (match a with | some al => al :: r.2.1 | none => r.2.1), r.2.2)
    | (TakeResult.failure _, u') => takeLoop rest u'

def processTakeMedicine (trk : TrackerState) (uid : String)
    (u : UserProfile) (slot : Nat) :
    ProcessResult × UserProfile × TrackerState :=
  let medicinesToTake := u.medicines.filter (slotPred slot)
  if medicinesToTake.isEmpty then
    ({ records := [], alerts := [], replied := false }, u, trk)
  else
    let r := takeLoop medicinesToTake u
    ({ records := r.1, alerts := r.2.1, replied := true }, r.2.2,
     { trk with pending := mapErase trk.pending uid })

/-! ## Slot inference fallback (lines 323-354 and 451-475)

With no pending entry, both acknowledgment paths parse the hour out of
the configured `HH:MM` strings (`parseInt(t.split(':')[0])`) and accept a
slot whose hour is within 2 of the current hour, testing slot 1 first.
-/

def digitsToNat (cs : List Char) : Nat :=
  cs.foldl (fun acc c => acc * 10 + (c.toNat - 48)) 0

def hourOf (time : String) : Nat :=
  digitsToNat ((time.data.takeWhile (fun c => c ≠ ':')).takeWhile
    (fun c => c.isDigit))

def inferSlot (st : BotSettings) (currentHour : Nat) : Option Nat :=
  let time1Hour := hourOf st.time1
  let time2Hour := hourOf st.time2
  if ((currentHour : Int) - (time1Hour : Int)).natAbs ≤ 2 then some 1
  else if ((currentHour : Int) - (time2Hour : Int)).natAbs ≤ 2 then some 2
  else none

/-- `handleStickerMessage` (lines 323-354).  `now` is the millisecond
clock read by `getPendingReminder`; `currentHour` is the Bangkok-local
hour read through `getThaiDate`.  Result `none` models the
unresolved-acknowledgment reply (no dose recorded). -/
def handleStickerMessage (trk : TrackerState) (now currentHour : Nat)
    (uid : String) (u : UserProfile) :
    Option (ProcessResult × UserProfile) × TrackerState :=
  let g := getPendingReminder trk now uid
  match g.1 with
  | some pending =>
    let r := processTakeMedicine g.2 uid u pending.timeSlot
    (some (r.1, r.2.1), r.2.2)
  | none =>
    match inferSlot u.settings currentHour with
    | none => (none, g.2)
    | some slot =>
      let r := processTakeMedicine g.2 uid u slot
      (some (r.1, r.2.1), r.2.2)

/-- The "taken" text command (lines 451-475): `pending?.timeSlot || null`
falls through to hour inference when there is no pending entry or its
slot number is falsy (`0`). -/
def handleAckText (trk : TrackerState) (now currentHour : Nat)
    (uid : String) (u : UserProfile) :
    Option (ProcessResult × UserProfile) × TrackerState :=
  let g := getPendingReminder trk now uid
  let currentSlot : Option Nat :=
    match g.1 with
    | some pending => if pending.timeSlot == 0 then none else some pending.timeSlot
    | none => none
  let currentSlot' : Option Nat :=
    match currentSlot with
    | some s => some s
    | none => inferSlot u.settings currentHour
  match currentSlot' with
  | none => (none, g.2)
  | some slot =>
    let r := processTakeMedicine g.2 uid u slot
    (some (r.1, r.2.1), r.2.2)

/-! ## Blob store (src/index.js lines 31-73)

The whole dataset lives under one Redis key.  `loadData` swallows a read
error and returns the empty object; `saveData` swallows a write error
(leaving the stored blob as it was).  `saveUser` is the read-modify-write
used by every mutation path.  The failure flags model whether the
corresponding Redis call throws.
-/

def Store : Type := List (String × UserProfile)

def loadData (store : Store) (readFails : Bool) : Store :=
  if readFails then [] else store

def saveData (store : Store) (writeFails : Bool) (d : Store) : Store :=
  if writeFails then store else d

def saveUser (store : Store) (readFails writeFails : Bool)
    (uid : String) (userData : UserProfile) : Store :=
  saveData store writeFails (mapSet (loadData store readFails) uid userData)

/-! ## Operation sequences over one profile

The four inventory-mutating commands, as dispatched by the text handler;
numeric arguments all come from `\d+` regex groups.
-/

inductive Op where
  | add (now : Nat) (name : String) (totalPills pillsPerDose timeSlot : Nat)
  | take (medicineId : String)
  | refill (name : String) (amount : Nat)
  | del (name : String)
deriving DecidableEq, Repr

def applyOp (u : UserProfile) : Op → UserProfile
  | Op.add now name total perDose slot =>
    (addMedicine u now name total perDose slot).2
  | Op.take medicineId => (takeMedicine u medicineId).2
  | Op.refill name amount => (refillMedicine u name amount).2
  | Op.del name => (deleteMedicine u name).2

def applyOps (u : UserProfile) (ops : List Op) : UserProfile :=
  ops.foldl applyOp u

/-- The stock invariant: every medicine has nonnegative remaining stock
and a nonnegative dose size (dose sizes are parsed from `\d+`). -/
def StockInv (u : UserProfile) : Prop :=
  ∀ m ∈ u.medicines, 0 ≤ m.remainingPills ∧ 0 ≤ m.pillsPerDose

/-! ## Observable abbreviations used by the theorem statements -/

/-- One successful dose recording on a single medicine record. -/
def decMed (m : Medicine) : Medicine :=
  { m with remainingPills := m.remainingPills - m.pillsPerDose }

/-- The medicines a slot-wide acknowledgment actually records: matching
slot, positive stock, and enough stock for one dose. -/
def fullPred (slot : Nat) (m : Medicine) : Bool :=
  slotPred slot m && decide (m.pillsPerDose ≤ m.remainingPills)

/-- Pointwise effect of a slot-wide acknowledgment on one medicine. -/
def stepFn (slot : Nat) (m : Medicine) : Medicine :=
  if fullPred slot m then decMed m else m

/-! ## Concrete fixtures for witnesses and counterexamples -/

def wUid : String := "u"

def wAlice : String := "alice"

def wBob : String := "bob"

def wMedStock12 : Medicine :=
  { id := "med_1", name := "Paracetamol", totalPills := 30,
    remainingPills := 12, pillsPerDose := 2, timeSlot := 1, createdAt := 1 }

def wMedStock0 : Medicine :=
  { id := "med_2", name := "Aspirin", totalPills := 10,
    remainingPills := 0, pillsPerDose := 1, timeSlot := 1, createdAt := 2 }

def wMedSlot2 : Medicine :=
  { id := "med_3", name := "Vitamin", totalPills := 20,
    remainingPills := 20, pillsPerDose := 1, timeSlot := 2, createdAt := 3 }

def wUser : UserProfile :=
  { medicines := [wMedStock12, wMedStock0, wMedSlot2],
    settings := defaultSettings, alertedMedicines := [] }

def wUserEmpty : UserProfile :=
  { medicines := [], settings := defaultSettings, alertedMedicines := [] }

/-- Settings whose two configured hours are 2 apart, so that 09:00 lies
within the 2-hour window of both. -/
def wSettingsBoth : BotSettings := { time1 := "08:00", time2 := "10:00" }

def wUserBoth : UserProfile :=
  { medicines := [wMedStock12], settings := wSettingsBoth,
    alertedMedicines := [] }

def oneTimer (uid : String) (ft : Nat) : TimerTask :=
  { uid := uid, fireAt := ft }

def wTrkArmed : TrackerState :=
  { pending := [(wUid, { timeSlot := 1, timestamp := 0 })],
    timers := [{ uid := wUid, fireAt := expiryMs }] }

def wAddName : String := "Zinc"

def wQVita : String := "Vita"

def wMedId5 : String := "med_5"

def wMedId1 : String := "med_1"

/-- Add 10 pills of a 3-per-dose medicine, then record one dose. -/
def wOps : List Op := [Op.add 5 wAddName 10 3 1, Op.take wMedId5]

def wMedAfter : Medicine :=
  { id := wMedId5, name := wAddName, totalPills := 10, remainingPills := 7,
    pillsPerDose := 3, timeSlot := 1, createdAt := 5 }

/-- The re-arm trace of claim C1: arm slot 1 at `t = 0`, re-arm slot 2 at
`t = 20` minutes, then let scheduled deletions run up to 31 minutes. -/
def wRearmTrace : TrackerState :=
  setPendingReminder
    (advanceTo (setPendingReminder { pending := [], timers := [] } 0 wUid 1)
      (20 * minuteMs))
    (20 * minuteMs) wUid 2

/-! ## Association-list lemmas -/

@[simp] theorem mapGet_nil {α : Type} (k : String) :
    mapGet ([] : List (String × α)) k = none := rfl

@[simp] theorem mapGet_cons_self {α : Type} (k : String) (v : α)
    (rest : List (String × α)) : mapGet ((k, v) :: rest) k = some v := by
  simp [mapGet]

theorem mapGet_cons_ne {α : Type} (k' k : String) (v : α)
    (rest : List (String × α)) (h : k' ≠ k) :
    mapGet ((k', v) :: rest) k = mapGet rest k := by
  simp [mapGet, h]

theorem mapGet_mapSet_self {α : Type} (l : List (String × α)) (k : String)
    (v : α) : mapGet (mapSet l k v) k = some v := by
  induction l with
  | nil => simp [mapSet]
  | cons kv rest ih =>
    obtain ⟨k', v'⟩ := kv
    by_cases h : k' = k
    · subst h
      simp [mapSet]
    · simp only [mapSet]
      rw [if_neg (by simp [h])]
      rw [mapGet_cons_ne _ _ _ _ h]
      exact ih

theorem mapGet_eq_none_of_not_mem {α : Type} (l : List (String × α))
    (k : String) (h : k ∉ l.map Prod.fst) : mapGet l k = none := by
  induction l with
  | nil => rfl
  | cons kv rest ih =>
    obtain ⟨k', v'⟩ := kv
    simp only [List.map_cons, List.mem_cons] at h
    push_neg at h
    rw [mapGet_cons_ne _ _ _ _ (fun he => h.1 he.symm)]
    exact ih h.2

theorem mapGet_mapErase_self {α : Type} (l : List (String × α)) (k : String)
    (h : (l.map Prod.fst).Nodup) : mapGet (mapErase l k) k = none := by
  induction l with
  | nil => rfl
  | cons kv rest ih =>
    obtain ⟨k', v'⟩ := kv
    simp only [List.map_cons, List.nodup_cons] at h
    by_cases he : k' = k
    · subst he
      simp only [mapErase]
      rw [if_pos (by simp)]
      exact mapGet_eq_none_of_not_mem _ _ h.1
    · simp only [mapErase]
      rw [if_neg (by simp [he])]
      rw [mapGet_cons_ne _ _ _ _ he]
      exact ih h.2

@[simp] theorem mapSet_cons_self {α : Type} (k : String) (v v' : α)
    (rest : List (String × α)) :
    mapSet ((k, v) :: rest) k v' = (k, v') :: rest := by
  simp [mapSet]

theorem advanceTo_single (uid : String) (e : PendingEntry) (ft now : Nat) :
    advanceTo ({ pending := [(uid, e)], timers := [oneTimer uid ft] } : TrackerState) now =
    (if ft ≤ now then ({ pending := [], timers := [] } : TrackerState)
    else ({ pending := [(uid, e)], timers := [oneTimer uid ft] } : TrackerState)) := by
  by_cases h : ft ≤ now
  · rw [if_pos h]
    have hnow : ¬ now < ft := by omega
    simp [advanceTo, oneTimer, List.filter_cons, h, hnow, mapErase]
  · rw [if_neg h]
    have hnow : now < ft := by omega
    simp [advanceTo, oneTimer, List.filter_cons, h, hnow]

theorem advanceTo_double (uid : String) (e : PendingEntry)
    (f1 f2 now : Nat) (hle : f1 ≤ f2) :
    advanceTo ({ pending := [(uid, e)], timers := [oneTimer uid f1, oneTimer uid f2] } : TrackerState) now =
    (if f1 ≤ now then
      (if f2 ≤ now then ({ pending := [], timers := [] } : TrackerState)
      else ({ pending := [], timers := [oneTimer uid f2] } : TrackerState))
    else ({ pending := [(uid, e)], timers := [oneTimer uid f1, oneTimer uid f2] } : TrackerState)) := by
  by_cases h1 : f1 ≤ now
  · rw [if_pos h1]
    by_cases h2 : f2 ≤ now
    · rw [if_pos h2]
      have hn1 : ¬ now < f1 := by omega
      have hn2 : ¬ now < f2 := by omega
      simp [advanceTo, oneTimer, List.filter_cons, h1, h2, hn1, hn2, mapErase]
    · rw [if_neg h2]
      have hn2 : now < f2 := by omega
      have hn1 : ¬ now < f1 := by omega
      simp [advanceTo, oneTimer, List.filter_cons, h1, h2, hn1, hn2, mapErase]
  · rw [if_neg h1]
    have hn1 : now < f1 := by omega
    have h2 : ¬ f2 ≤ now := by omega
    have hn2 : now < f2 := by omega
    simp [advanceTo, oneTimer, List.filter_cons, h1, h2, hn1, hn2]

/-! ## Claim theorems -/

/-- Claim C2: `peek(userId)` returns a stored PendingAck exactly when
`now - armedAt ≤ 30` minutes; a stale entry is deleted and none is
returned.  Consequently an entry armed at `T` is still returned at
`T + 29` minutes and no longer at `T + 31` minutes (by then the
scheduled deletion has fired, and the defensive re-check would reject it
anyway). -/
theorem getPendingReminder_characterization :
    (∀ (s : TrackerState) (now : Nat) (uid : String) (p : PendingEntry),
      mapGet s.pending uid = some p →
      (s.pending.map Prod.fst).Nodup →
      (((getPendingReminder s now uid).1 = some p ↔
          now - p.timestamp ≤ expiryMs) ∧
        (expiryMs < now - p.timestamp →
          (getPendingReminder s now uid).1 = none ∧
          mapGet (getPendingReminder s now uid).2.pending uid = none))) ∧
    (∀ (T : Nat) (uid : String) (slot : Nat),
      (getPendingReminder
        (advanceTo (setPendingReminder { pending := [], timers := [] } T uid
          slot) (T + 29 * minuteMs)) (T + 29 * minuteMs) uid).1 =
        some { timeSlot := slot, timestamp := T } ∧
      (getPendingReminder
        (advanceTo (setPendingReminder { pending := [], timers := [] } T uid
          slot) (T + 31 * minuteMs)) (T + 31 * minuteMs) uid).1 = none) := by
  constructor
  · intro s now uid p hget hnd
    constructor
    · by_cases hc : expiryMs < now - p.timestamp
      · simp only [getPendingReminder, hget, if_pos hc]
        constructor
        · intro h
          exact absurd h (by simp)
        · intro h
          omega
      · simp only [getPendingReminder, hget, if_neg hc]
        constructor
        · intro _
          omega
        · intro _
          trivial
    · intro hstale
      simp only [getPendingReminder, hget, if_pos hstale]
      exact ⟨by simp, mapGet_mapErase_self _ _ hnd⟩
  · intro T uid slot
    have harm : setPendingReminder { pending := [], timers := [] } T uid
        slot =
        { pending := [(uid, { timeSlot := slot, timestamp := T })],
          timers := [oneTimer uid (T + expiryMs)] } := rfl
    constructor
    · rw [harm, advanceTo_single]
      rw [if_neg (by simp only [expiryMs, minuteMs]; omega)]
      simp only [getPendingReminder, mapGet_cons_self]
      rw [if_neg (by simp only [expiryMs, minuteMs]; omega)]
    · rw [harm, advanceTo_single]
      rw [if_pos (by simp only [expiryMs, minuteMs]; omega)]
      simp [getPendingReminder]

/-- Witness for C2: an entry armed at time 0 is still returned by `peek`
at time 100 ms. -/
theorem getPendingReminder_characterization_witness :
    (getPendingReminder wTrkArmed 100 wUid).1 =
      some { timeSlot := 1, timestamp := 0 } :=
  ((getPendingReminder_characterization.1 wTrkArmed 100 wUid
    { timeSlot := 1, timestamp := 0 } (by decide) (by decide)).1).mpr
    (by decide)

/-- Counterexample to claim C1: arm slot 1 at `t = 0` and re-arm slot 2
at `t = 20` minutes; at `t = 31` minutes, only 11 minutes after the new
entry's own `armedAt` (well inside its claimed 30-minute lifetime), the
first arm's uncancelled scheduled deletion has already removed the
user's entry, so `peek` returns none. -/
theorem rearm_entry_lost_counterexample :
    (getPendingReminder (advanceTo wRearmTrace (31 * minuteMs))
      (31 * minuteMs) wUid).1 = none ∧
    31 * minuteMs - 20 * minuteMs ≤ expiryMs := by
  constructor
  · decide
  · decide

/-- Claim C1, amended: `arm(userId, timeSlot)` records
`{timeSlot, armedAt: now}` replacing any existing entry, and schedules a
deletion of the user's entry 30 minutes from `armedAt`; a scheduled
deletion is never cancelled and removes whatever entry the user then
has.  Hence after arming at `t1` and re-arming at `t2`, the re-armed
entry (carrying the latest slot) is the one returned, but only while the
query time is both within 30 minutes of `t2` and — unless the first
arm's deletion already fired before the re-arm — within 30 minutes of
`t1`. -/
theorem setPendingReminder_rearm_window (t1 t2 tq s1 s2 : Nat)
    (uid : String) (h12 : t1 ≤ t2) (h2q : t2 ≤ tq) :
    (getPendingReminder
      (advanceTo
        (setPendingReminder
          (advanceTo (setPendingReminder { pending := [], timers := [] }
            t1 uid s1) t2) t2 uid s2) tq) tq uid).1 =
    (if tq < t2 + expiryMs ∧ (t1 + expiryMs ≤ t2 ∨ tq < t1 + expiryMs)
    then some { timeSlot := s2, timestamp := t2 } else none) := by
  have harm1 : setPendingReminder { pending := [], timers := [] } t1 uid
      s1 =
      { pending := [(uid, { timeSlot := s1, timestamp := t1 })],
        timers := [oneTimer uid (t1 + expiryMs)] } := rfl
  rw [harm1, advanceTo_single]
  by_cases hB : t1 + expiryMs ≤ t2
  · rw [if_pos hB]
    have harm2 : setPendingReminder
        ({ pending := [], timers := [] } : TrackerState) t2 uid s2 =
        { pending := [(uid, { timeSlot := s2, timestamp := t2 })],
          timers := [oneTimer uid (t2 + expiryMs)] } := rfl
    rw [harm2, advanceTo_single]
    by_cases hq : t2 + expiryMs ≤ tq
    · rw [if_pos hq]
      rw [if_neg (by omega)]
      simp [getPendingReminder]
    · rw [if_neg hq]
      rw [if_pos (by omega)]
      simp only [getPendingReminder, mapGet_cons_self]
      rw [if_neg (by omega)]
  · rw [if_neg hB]
    have harm2 : setPendingReminder
        ({ pending := [(uid, { timeSlot := s1, timestamp := t1 })],
           timers := [oneTimer uid (t1 + expiryMs)] } : TrackerState)
        t2 uid s2 =
        { pending := [(uid, { timeSlot := s2, timestamp := t2 })],
          timers := [oneTimer uid (t1 + expiryMs),
            oneTimer uid (t2 + expiryMs)] } := by
      simp [setPendingReminder, oneTimer]
    rw [harm2, advanceTo_double _ _ _ _ _ (by omega)]
    by_cases h1q : t1 + expiryMs ≤ tq
    · rw [if_pos h1q]
      by_cases h2q' : t2 + expiryMs ≤ tq
      · rw [if_pos h2q']
        rw [if_neg (by omega)]
        simp [getPendingReminder]
      · rw [if_neg h2q']
        rw [if_neg (by omega)]
        simp [getPendingReminder]
    · rw [if_neg h1q]
      rw [if_pos (by omega)]
      simp only [getPendingReminder, mapGet_cons_self]
      rw [if_neg (by omega)]

/-- Witness for the amended C1: with `t1 = 0`, `t2 = 20` minutes and a
query at `t = 25` minutes, the re-armed slot-2 entry is still returned
(both 30-minute windows are open). -/
theorem setPendingReminder_rearm_window_witness :
    (getPendingReminder
      (advanceTo
        (setPendingReminder
          (advanceTo (setPendingReminder { pending := [], timers := [] }
            0 wUid 1) (20 * minuteMs)) (20 * minuteMs) wUid 2)
        (25 * minuteMs)) (25 * minuteMs) wUid).1 =
      some { timeSlot := 2, timestamp := 20 * minuteMs } := by
  rw [setPendingReminder_rearm_window 0 (20 * minuteMs) (25 * minuteMs)
    1 2 wUid (by decide) (by decide)]
  rw [if_pos (by constructor; · decide
                 · right; decide)]

/-- Counterexample to claim C7: with a pending entry armed and a profile
holding no slot-1 medicine with stock, processing the acknowledgment
returns early and the pending entry is NOT removed — the claim says the
entry is removed unconditionally, even when no doses are recorded. -/
theorem process_no_doses_keeps_pending_counterexample :
    (processTakeMedicine wTrkArmed wUid wUserEmpty 1).2.2 = wTrkArmed ∧
    mapGet (processTakeMedicine wTrkArmed wUid wUserEmpty 1).2.2.pending
      wUid = some { timeSlot := 1, timestamp := 0 } := by
  constructor
  · rfl
  · rfl

/-- Claim C7, amended: once an acknowledgment is processed, the pending
entry is removed whenever at least one medicine of the slot with
positive stock was available for recording; when no medicine matches,
the handler replies and returns before the removal, so the pending entry
survives (though no dose was recorded either). -/
theorem processTakeMedicine_pending_clear (trk : TrackerState)
    (uid : String) (u : UserProfile) (slot : Nat) :
    (u.medicines.filter (slotPred slot) ≠ [] →
      (processTakeMedicine trk uid u slot).2.2 =
        { trk with pending := mapErase trk.pending uid }) ∧
    (u.medicines.filter (slotPred slot) = [] →
      (processTakeMedicine trk uid u slot).2.2 = trk ∧
      (processTakeMedicine trk uid u slot).1.records = []) := by
  constructor
  · intro h
    simp only [processTakeMedicine]
    rw [if_neg (by simp only [List.isEmpty_eq_true]; exact h)]
  · intro h
    simp only [processTakeMedicine]
    rw [if_pos (by simp only [List.isEmpty_eq_true]; exact h)]
    exact ⟨rfl, rfl⟩

/-- Witness for the amended C7: processing slot 1 for the fixture user
(who has a slot-1 medicine with stock) removes the armed pending entry. -/
theorem processTakeMedicine_pending_clear_witness :
    (processTakeMedicine wTrkArmed wUid wUser 1).2.2.pending = [] := by
  rw [(processTakeMedicine_pending_clear wTrkArmed wUid wUser 1).1
    (by decide)]
  decide

/-- Claim C9, evaluated at the failing input: with user "alice" stored,
a read failure during `saveUser` for user "bob" does not abort — the
write is still attempted against the empty object the failed read
returned, so the stored blob becomes `[(bob, …)]` and alice's data is
erased.  (A write failure, by contrast, leaves the blob unchanged.) -/
theorem saveUser_read_failure_wipes_store :
    saveUser [(wAlice, defaultProfile)] true false wBob defaultProfile =
      [(wBob, defaultProfile)] ∧
    mapGet (saveUser [(wAlice, defaultProfile)] true false wBob
      defaultProfile) wAlice = none ∧
    saveUser [(wAlice, defaultProfile)] false true wBob defaultProfile =
      [(wAlice, defaultProfile)] := by
  refine ⟨rfl, by decide, rfl⟩

/-- Claim C5: `takeDose` on a missing medicine or with insufficient
stock returns a failure carrying a nonempty human-readable message, and
the profile is returned completely unmodified (no stock decrement, no
alert-ledger change). -/
theorem takeMedicine_failure_no_mutation (u : UserProfile)
    (medicineId : String) :
    (u.medicines.find? (fun m => m.id == medicineId) = none →
      takeMedicine u medicineId = (TakeResult.failure msgNotFound, u)) ∧
    (∀ med, u.medicines.find? (fun m => m.id == medicineId) = some med →
      med.remainingPills < med.pillsPerDose →
      takeMedicine u medicineId =
        (TakeResult.failure (msgDepleted med.name), u)) ∧
    msgNotFound ≠ "" ∧ (∀ name, msgDepleted name ≠ "") := by
  refine ⟨?_, ?_, ?_, ?_⟩
  · intro h
    simp only [takeMedicine, h]
  · intro med h hlt
    simp only [takeMedicine, h, if_pos hlt]
  · decide
  · intro name hcontra
    have hlen := congrArg String.length hcontra
    simp only [msgDepleted, String.length_append] at hlen
    have h1 : 0 < msgDepletedPre.length := by decide
    have h2 : ("" : String).length = 0 := rfl
    omega

/-- Witness for C5: taking an unknown medicine id on the empty profile
fails with the not-found message and no mutation. -/
theorem takeMedicine_failure_no_mutation_witness :
    takeMedicine wUserEmpty wUid =
      (TakeResult.failure msgNotFound, wUserEmpty) :=
  (takeMedicine_failure_no_mutation wUserEmpty wUid).1 (by decide)

theorem mem_updateFirst_const (p : Medicine → Bool) (v : Medicine)
    (l : List Medicine) (x : Medicine)
    (hx : x ∈ updateFirst p (fun _ => v) l) : x ∈ l ∨ x = v := by
  induction l with
  | nil => exact (List.not_mem_nil x hx).elim
  | cons m rest ih =>
    by_cases hp : p m
    · simp only [updateFirst, if_pos hp] at hx
      rcases List.mem_cons.mp hx with h | h
      · exact Or.inr h
      · exact Or.inl (List.mem_cons_of_mem _ h)
    · simp only [updateFirst, if_neg hp] at hx
      rcases List.mem_cons.mp hx with h | h
      · exact Or.inl (h ▸ List.mem_cons_self _ _)
      · rcases ih h with h' | h'
        · exact Or.inl (List.mem_cons_of_mem _ h')
        · exact Or.inr h'

theorem mem_removeFirst (p : Medicine → Bool) (l : List Medicine)
    (x : Medicine) (hx : x ∈ removeFirst p l) : x ∈ l := by
  induction l with
  | nil => exact (List.not_mem_nil x hx).elim
  | cons m rest ih =>
    by_cases hp : p m
    · simp only [removeFirst, if_pos hp] at hx
      exact List.mem_cons_of_mem _ hx
    · simp only [removeFirst, if_neg hp] at hx
      rcases List.mem_cons.mp hx with h | h
      · exact h ▸ List.mem_cons_self _ _
      · exact List.mem_cons_of_mem _ (ih h)

theorem stockInv_applyOp (u : UserProfile) (op : Op) (hInv : StockInv u) :
    StockInv (applyOp u op) := by
  cases op with
  | add now name total perDose slot =>
    intro m hm
    simp only [applyOp, addMedicine, List.mem_append,
      List.mem_singleton] at hm
    rcases hm with h | h
    · exact hInv m h
    · subst h
      constructor
      · exact Int.natCast_nonneg total
      · exact Int.natCast_nonneg perDose
  | take medicineId =>
    rcases hfind : u.medicines.find? (fun m => m.id == medicineId) with
      _ | med
    · intro m hm
      simp only [applyOp, takeMedicine, hfind] at hm
      exact hInv m hm
    · by_cases hlt : med.remainingPills < med.pillsPerDose
      · intro m hm
        simp only [applyOp, takeMedicine, hfind, if_pos hlt] at hm
        exact hInv m hm
      · intro m hm
        simp only [applyOp, takeMedicine, hfind, if_neg hlt] at hm
        have hmed := hInv med (List.mem_of_find?_eq_some hfind)
        rcases mem_updateFirst_const _ _ _ _ hm with h | h
        · exact hInv m h
        · subst h
          refine ⟨?_, hmed.2⟩
          simp only []
          omega
  | refill name amount =>
    rcases hfind : u.medicines.find? (fun m => matchesName m name) with
      _ | med
    · intro m hm
      simp only [applyOp, refillMedicine, hfind] at hm
      exact hInv m hm
    · intro m hm
      simp only [applyOp, refillMedicine, hfind] at hm
      have hmed := hInv med (List.mem_of_find?_eq_some hfind)
      rcases mem_updateFirst_const _ _ _ _ hm with h | h
      · exact hInv m h
      · subst h
        refine ⟨?_, hmed.2⟩
        simp only []
        have := Int.natCast_nonneg amount
        omega
  | del name =>
    rcases hfind : u.medicines.find? (fun m => matchesName m name) with
      _ | med
    · intro m hm
      simp only [applyOp, deleteMedicine, hfind] at hm
      exact hInv m hm
    · intro m hm
      simp only [applyOp, deleteMedicine, hfind] at hm
      exact hInv m (mem_removeFirst _ _ _ hm)

theorem stockInv_applyOps (u : UserProfile) (ops : List Op)
    (hInv : StockInv u) : StockInv (applyOps u ops) := by
  induction ops generalizing u with
  | nil => exact hInv
  | cons op rest ih =>
    simp only [applyOps, List.foldl_cons]
    exact ih (applyOp u op) (stockInv_applyOp u op hInv)

/-- Claim C4: under any sequence of add / take / refill / delete
operations, every medicine's `remainingPills` stays nonnegative —
`takeDose` rejects when stock is insufficient, so it never drives the
count below zero. -/
theorem remainingPills_nonneg (u : UserProfile) (ops : List Op)
    (hInv : StockInv u) :
    ∀ m ∈ (applyOps u ops).medicines, 0 ≤ m.remainingPills :=
  fun m hm => (stockInv_applyOps u ops hInv m hm).1

/-- Witness for C4: starting from the default (empty) profile, adding a
10-pill medicine and recording one 3-pill dose leaves 7 pills — and the
theorem instance certifies nonnegativity for that concrete run. -/
theorem remainingPills_nonneg_witness :
    (applyOps defaultProfile wOps).medicines = [wMedAfter] ∧
    0 ≤ wMedAfter.remainingPills :=
  ⟨by decide,
    remainingPills_nonneg defaultProfile wOps
      (fun m hm => absurd hm (List.not_mem_nil m)) wMedAfter
      (by decide)⟩

/-- Counterexample to claim C8: with times 08:00 and 10:00 configured,
at hour 9 BOTH configured times are within the 2-hour window, yet the
resolver picks slot 1 and a dose IS recorded (one record for the slot-1
medicine) instead of treating the event as unresolved. -/
theorem inferSlot_both_match_counterexample :
    (((9 : Int) - (hourOf wSettingsBoth.time1 : Int)).natAbs ≤ 2 ∧
      ((9 : Int) - (hourOf wSettingsBoth.time2 : Int)).natAbs ≤ 2) ∧
    inferSlot wSettingsBoth 9 = some 1 ∧
    ((handleStickerMessage { pending := [], timers := [] } 0 9 wUid
      wUserBoth).1.map (fun r => r.1.records.length)) = some 1 := by
  refine ⟨by decide, by decide, by decide⟩

/-- Claim C8, amended: with no pending entry the resolver infers the
slot by checking the configured times in order — slot 1 whenever the
current hour is within 2 of time1's hour (even if time2's hour also
matches), else slot 2 when within 2 of time2's hour; only when NEITHER
matches is the event unresolved, and then no dose is recorded (both in
the sticker path and in the "taken" text path). -/
theorem inferSlot_characterization (st : BotSettings) (h : Nat) :
    (inferSlot st h = some 1 ↔
      ((h : Int) - (hourOf st.time1 : Int)).natAbs ≤ 2) ∧
    (inferSlot st h = some 2 ↔
      (¬ ((h : Int) - (hourOf st.time1 : Int)).natAbs ≤ 2 ∧
        ((h : Int) - (hourOf st.time2 : Int)).natAbs ≤ 2)) ∧
    (inferSlot st h = none ↔
      (¬ ((h : Int) - (hourOf st.time1 : Int)).natAbs ≤ 2 ∧
        ¬ ((h : Int) - (hourOf st.time2 : Int)).natAbs ≤ 2)) ∧
    (∀ (trk : TrackerState) (now : Nat) (uid : String) (u : UserProfile),
      u.settings = st →
      (getPendingReminder trk now uid).1 = none →
      inferSlot st h = none →
      (handleStickerMessage trk now h uid u).1 = none ∧
      (handleAckText trk now h uid u).1 = none) := by
  by_cases h1 : ((h : Int) - (hourOf st.time1 : Int)).natAbs ≤ 2
  · refine ⟨?_, ?_, ?_, ?_⟩
    · simp [inferSlot, h1]
    · simp [inferSlot, h1]
    · simp [inferSlot, h1]
    · intro trk now uid u hs hpend hinf
      rw [inferSlot, if_pos h1] at hinf
      exact absurd hinf (by simp)
  · by_cases h2 : ((h : Int) - (hourOf st.time2 : Int)).natAbs ≤ 2
    · refine ⟨?_, ?_, ?_, ?_⟩
      · simp [inferSlot, h1, h2]
      · simp [inferSlot, h1, h2]
      · simp [inferSlot, h1, h2]
      · intro trk now uid u hs hpend hinf
        rw [inferSlot, if_neg h1, if_pos h2] at hinf
        exact absurd hinf (by simp)
    · refine ⟨?_, ?_, ?_, ?_⟩
      · simp [inferSlot, h1, h2]
      · simp [inferSlot, h1, h2]
      · simp [inferSlot, h1, h2]
      · intro trk now uid u hs hpend hinf
        constructor
        · simp only [handleStickerMessage, hpend, hs, hinf]
        · simp only [handleAckText, hpend, hs, hinf]

/-- Witness for the amended C8: at hour 14 with the default 08:00/20:00
settings neither window matches, so both acknowledgment paths leave the
event unresolved and record nothing. -/
theorem inferSlot_characterization_witness :
    inferSlot defaultSettings 14 = none ∧
    (handleStickerMessage { pending := [], timers := [] } 0 14 wUid
      wUserEmpty).1 = none := by
  have hch := inferSlot_characterization defaultSettings 14
  refine ⟨hch.2.2.1.mpr (by decide), ?_⟩
  exact (hch.2.2.2 { pending := [], timers := [] } 0 wUid wUserEmpty rfl
    (by decide) (hch.2.2.1.mpr (by decide))).1

theorem startsWithList_iff (n l : List Char) :
    startsWithList l n = true ↔ ∃ t, l = n ++ t := by
  induction n generalizing l with
  | nil =>
    simp only [startsWithList, List.nil_append]
    constructor
    · intro _
      exact ⟨l, rfl⟩
    · intro _
      cases l <;> trivial
  | cons b bs ih =>
    cases l with
    | nil =>
      simp only [startsWithList]
      constructor
      · intro h
        exact absurd h (by simp)
      · rintro ⟨t, ht⟩
        exact absurd ht (by simp)
    | cons a xs =>
      simp only [startsWithList, Bool.and_eq_true, beq_iff_eq, ih]
      constructor
      · rintro ⟨rfl, t, rfl⟩
        exact ⟨t, rfl⟩
      · rintro ⟨t, ht⟩
        rw [List.cons_append] at ht
        injection ht with h1 h2
        exact ⟨h1, t, h2⟩

theorem containsList_iff (hay n : List Char) :
    containsList hay n = true ↔ ∃ p t, hay = p ++ (n ++ t) := by
  induction hay with
  | nil =>
    simp only [containsList, List.isEmpty_eq_true]
    constructor
    · rintro rfl
      exact ⟨[], [], rfl⟩
    · rintro ⟨p, t, hpt⟩
      rcases List.append_eq_nil.mp hpt.symm with ⟨rfl, h2⟩
      rcases List.append_eq_nil.mp h2 with ⟨rfl, rfl⟩
      rfl
  | cons c rest ih =>
    simp only [containsList, Bool.or_eq_true, startsWithList_iff n, ih]
    constructor
    · rintro (⟨t, ht⟩ | ⟨p, t, hpt⟩)
      · exact ⟨[], t, by simpa using ht⟩
      · exact ⟨c :: p, t, by simp [hpt]⟩
    · rintro ⟨p, t, hpt⟩
      cases p with
      | nil =>
        exact Or.inl ⟨t, by simpa using hpt⟩
      | cons p0 ps =>
        rw [List.cons_append] at hpt
        injection hpt with h1 h2
        exact Or.inr ⟨ps, t, h2⟩

theorem find?_first (p : Medicine → Bool) (pre : List Medicine)
    (med : Medicine) (post : List Medicine)
    (hpre : ∀ m ∈ pre, p m = false) (hmed : p med = true) :
    List.find? p (pre ++ med :: post) = some med := by
  induction pre with
  | nil =>
    simpa using List.find?_cons_of_pos post hmed
  | cons m rest ih =>
    have hm := hpre m (List.mem_cons_self _ _)
    rw [List.cons_append, List.find?_cons_of_neg _ (by simp [hm])]
    exact ih (fun m' hm' => hpre m' (List.mem_cons_of_mem _ hm'))

theorem updateFirst_append (p : Medicine → Bool) (f : Medicine → Medicine)
    (pre : List Medicine) (med : Medicine) (post : List Medicine)
    (hpre : ∀ m ∈ pre, p m = false) (hmed : p med = true) :
    updateFirst p f (pre ++ med :: post) = pre ++ f med :: post := by
  induction pre with
  | nil =>
    simp [updateFirst, hmed]
  | cons m rest ih =>
    have hm := hpre m (List.mem_cons_self _ _)
    rw [List.cons_append, List.cons_append]
    simp only [updateFirst, hm]
    rw [if_neg (by simp)]
    rw [ih (fun m' hm' => hpre m' (List.mem_cons_of_mem _ hm'))]

theorem removeFirst_append (p : Medicine → Bool) (pre : List Medicine)
    (med : Medicine) (post : List Medicine)
    (hpre : ∀ m ∈ pre, p m = false) (hmed : p med = true) :
    removeFirst p (pre ++ med :: post) = pre ++ post := by
  induction pre with
  | nil =>
    simp [removeFirst, hmed]
  | cons m rest ih =>
    have hm := hpre m (List.mem_cons_self _ _)
    rw [List.cons_append, List.cons_append]
    simp only [removeFirst, hm]
    rw [if_neg (by simp)]
    rw [ih (fun m' hm' => hpre m' (List.mem_cons_of_mem _ hm'))]

/-- Claim C10: refill, delete and take-by-name resolve their target by
case-insensitive substring containment of the query in the stored name
(`matchesName` holds exactly when the lowercased query's character
sequence occurs contiguously inside the lowercased name), and when
several medicines match they act on the first match in stored order
only. -/
theorem name_resolution_first_match (u : UserProfile) (q : String)
    (amount : Nat) (pre post : List Medicine) (med : Medicine)
    (hsplit : u.medicines = pre ++ med :: post)
    (hpre : ∀ m ∈ pre, matchesName m q = false)
    (hmed : matchesName med q = true) :
    (refillMedicine u q amount).1 =
      some { med with
        remainingPills := med.remainingPills + (amount : Int) } ∧
    (refillMedicine u q amount).2.medicines =
      pre ++ { med with
        remainingPills := med.remainingPills + (amount : Int) } :: post ∧
    (deleteMedicine u q).1 = some med ∧
    (deleteMedicine u q).2.medicines = pre ++ post ∧
    takeByName u q = some (takeMedicine u med.id) ∧
    (∀ (m : Medicine) (q' : String), matchesName m q' = true ↔
      ∃ pfx sfx,
        lowerData m.name = pfx ++ (lowerData q' ++ sfx)) := by
  have hfind : u.medicines.find? (fun m => matchesName m q) = some med := by
    rw [hsplit]
    exact find?_first _ _ _ _ hpre hmed
  refine ⟨?_, ?_, ?_, ?_, ?_, ?_⟩
  · simp only [refillMedicine, hfind]
  · simp only [refillMedicine, hfind]
    rw [hsplit, updateFirst_append _ _ _ _ _ hpre hmed]
  · simp only [deleteMedicine, hfind]
  · simp only [deleteMedicine, hfind]
    rw [hsplit, removeFirst_append _ _ _ _ hpre hmed]
  · simp only [takeByName, hfind]
  · intro m q'
    exact containsList_iff (lowerData m.name) (lowerData q')

/-- Witness for C10: the query "Vita" skips the two earlier
non-matching medicines and refills / deletes the third, "Vitamin",
case-insensitively. -/
theorem name_resolution_first_match_witness :
    (refillMedicine wUser wQVita 5).1 =
      some { wMedSlot2 with remainingPills := 25 } ∧
    (deleteMedicine wUser wQVita).1 = some wMedSlot2 := by
  have h := name_resolution_first_match wUser wQVita 5
    [wMedStock12, wMedStock0] [] wMedSlot2 (by decide)
    (by decide) (by decide)
  refine ⟨?_, h.2.2.1⟩
  rw [h.1]
  decide

@[simp] theorem isFalsyLedger_eq_true (v : Option Nat) :
    isFalsyLedger v = true ↔ (v = none ∨ v = some 0) := by
  cases v <;> simp [isFalsyLedger]

@[simp] theorem ledgerLtTwo_eq_true (v : Option Nat) :
    ledgerLtTwo v = true ↔ ∃ n, v = some n ∧ n < 2 := by
  cases v <;> simp [ledgerLtTwo]


/-- Claim C3: a successful `takeDose` emits alert level 2 and writes
ledger entry 2 exactly when post-decrement stock is ≤ 5 and the ledger
entry is unset or < 2; otherwise it emits alert level 1 and writes
ledger entry 1 exactly when post-decrement stock is in (5, 10] and the
ledger entry is unset; otherwise it emits no alert.  Refilling a
medicine removes its ledger entry (re-enabling both alert levels for the
next depletion cycle).  The ledger hypotheses exclude a stored value 0,
which the code never writes (it only ever stores 1 or 2). -/
theorem takeMedicine_alert_thresholds (u : UserProfile)
    (medicineId : String) (med : Medicine)
    (hfind : u.medicines.find? (fun m => m.id == medicineId) = some med)
    (hstock : ¬ med.remainingPills < med.pillsPerDose)
    (hled : mapGet u.alertedMedicines medicineId ≠ some 0)
    (hnd : (u.alertedMedicines.map Prod.fst).Nodup) :
    (((takeMedicine u medicineId).1 =
        TakeResult.success (decMed med) (some (decMed med, 2)) ∧
      mapGet (takeMedicine u medicineId).2.alertedMedicines medicineId =
        some 2) ↔
      ((decMed med).remainingPills ≤ 5 ∧
        (mapGet u.alertedMedicines medicineId = none ∨
          ∃ n, mapGet u.alertedMedicines medicineId = some n ∧ n < 2))) ∧
    (((takeMedicine u medicineId).1 =
        TakeResult.success (decMed med) (some (decMed med, 1)) ∧
      mapGet (takeMedicine u medicineId).2.alertedMedicines medicineId =
        some 1) ↔
      (5 < (decMed med).remainingPills ∧
        (decMed med).remainingPills ≤ 10 ∧
        mapGet u.alertedMedicines medicineId = none)) ∧
    (((takeMedicine u medicineId).1 =
        TakeResult.success (decMed med) none) ↔
      (¬ ((decMed med).remainingPills ≤ 5 ∧
          (mapGet u.alertedMedicines medicineId = none ∨
            ∃ n, mapGet u.alertedMedicines medicineId = some n ∧ n < 2)) ∧
        ¬ (5 < (decMed med).remainingPills ∧
          (decMed med).remainingPills ≤ 10 ∧
          mapGet u.alertedMedicines medicineId = none))) ∧
    (∀ (q : String) (amt : Nat) (med2 : Medicine),
      u.medicines.find? (fun m => matchesName m q) = some med2 →
      mapGet u.alertedMedicines med2.id ≠ some 0 →
      mapGet (refillMedicine u q amt).2.alertedMedicines med2.id =
        none) := by
  have hrefill : ∀ (q : String) (amt : Nat) (med2 : Medicine),
      u.medicines.find? (fun m => matchesName m q) = some med2 →
      mapGet u.alertedMedicines med2.id ≠ some 0 →
      mapGet (refillMedicine u q amt).2.alertedMedicines med2.id =
        none := by
    intro q amt med2 hfind2 hled2
    simp only [refillMedicine, hfind2]
    rcases hv2 : mapGet u.alertedMedicines med2.id with _ | n
    · simp [isFalsyLedger, hv2]
    · have hn : (n == 0) = false := by
        have : n ≠ 0 := fun h => hled2 (by rw [hv2, h])
        simp [this]
      simp only [isFalsyLedger, hn, Bool.false_eq_true, if_false]
      exact mapGet_mapErase_self _ _ hnd
  refine ⟨?_, ?_, ?_, hrefill⟩ <;>
    simp only [takeMedicine, hfind, if_neg hstock] <;>
    split_ifs with hA hB <;>
    simp only [Bool.and_eq_true, Bool.or_eq_true, decide_eq_true_eq,
      isFalsyLedger_eq_true, ledgerLtTwo_eq_true] at hA <;>
    try simp only [Bool.and_eq_true, Bool.or_eq_true, decide_eq_true_eq,
      isFalsyLedger_eq_true, ledgerLtTwo_eq_true] at hB
  -- conjunct 1, branch level-2
  · simp only [mapGet_mapSet_self, decMed]
    constructor
    · intro _
      refine ⟨hA.1, ?_⟩
      rcases hA.2 with (h | h) | h
      · exact Or.inl h
      · exact absurd h hled
      · exact Or.inr h
    · intro _
      exact ⟨by trivial, by trivial⟩
  -- conjunct 1, branch level-1
  · simp only [mapGet_mapSet_self, decMed]
    constructor
    · rintro ⟨h1, h2⟩
      exact absurd h1 (by simp)
    · rintro ⟨h1, h2⟩
      exact absurd ⟨h1, by tauto⟩ hA
  -- conjunct 1, branch no alert
  · simp only [decMed]
    constructor
    · rintro ⟨h1, h2⟩
      exact absurd h1 (by simp)
    · rintro ⟨h1, h2⟩
      exact absurd ⟨h1, by tauto⟩ hA
  -- conjunct 2, branch level-2
  · simp only [mapGet_mapSet_self, decMed]
    constructor
    · rintro ⟨h1, h2⟩
      exact absurd h1 (by simp)
    · rintro ⟨h1, h2, h3⟩
      have := hA.1
      omega
  -- conjunct 2, branch level-1
  · simp only [mapGet_mapSet_self, decMed]
    constructor
    · intro _
      rcases hB.2 with h | h
      · exact ⟨hB.1.2, hB.1.1, h⟩
      · exact absurd h hled
    · intro _
      exact ⟨by trivial, by trivial⟩
  -- conjunct 2, branch no alert
  · simp only [decMed]
    constructor
    · rintro ⟨h1, h2⟩
      exact absurd h1 (by simp)
    · rintro ⟨h1, h2, h3⟩
      exact absurd ⟨⟨h2, h1⟩, Or.inl h3⟩ hB
  -- conjunct 3, branch level-2
  · simp only [decMed]
    constructor
    · intro h1
      exact absurd h1 (by simp)
    · rintro ⟨hnA2, hnA1⟩
      refine absurd ⟨hA.1, ?_⟩ hnA2
      rcases hA.2 with (h | h) | h
      · exact Or.inl h
      · exact absurd h hled
      · exact Or.inr h
  -- conjunct 3, branch level-1
  · simp only [decMed]
    constructor
    · intro h1
      exact absurd h1 (by simp)
    · rintro ⟨hnA2, hnA1⟩
      rcases hB.2 with h | h
      · exact absurd ⟨hB.1.2, hB.1.1, h⟩ hnA1
      · exact absurd h hled
  -- conjunct 3, branch no alert
  · simp only [decMed]
    constructor
    · intro _
      constructor
      · rintro ⟨h1, h2⟩
        exact absurd ⟨h1, by tauto⟩ hA
      · rintro ⟨h1, h2, h3⟩
        exact absurd ⟨⟨h2, h1⟩, Or.inl h3⟩ hB
    · intro _
      trivial

/-- Witness for C3: the fixture medicine drops from 12 to 10 pills, which
is in (5, 10] with an unset ledger entry, so alert level 1 fires. -/
theorem takeMedicine_alert_thresholds_witness :
    (takeMedicine wUser wMedId1).1 =
      TakeResult.success (decMed wMedStock12)
        (some (decMed wMedStock12, 1)) := by
  have h := takeMedicine_alert_thresholds wUser wMedId1 wMedStock12
    (by decide) (by decide) (by decide) (by decide)
  exact (h.2.1.mpr (by decide)).1

theorem takeMedicine_cons (m0 : Medicine) (meds : List Medicine)
    (st : BotSettings) (L : List (String × Nat)) (medicineId : String)
    (hne : (m0.id == medicineId) = false) :
    takeMedicine { medicines := m0 :: meds, settings := st, alertedMedicines := L } medicineId =
    ((takeMedicine { medicines := meds, settings := st, alertedMedicines := L } medicineId).1,
     { medicines := m0 :: (takeMedicine { medicines := meds, settings := st, alertedMedicines := L } medicineId).2.medicines,
       settings := (takeMedicine { medicines := meds, settings := st, alertedMedicines := L } medicineId).2.settings,
       alertedMedicines := (takeMedicine { medicines := meds, settings := st, alertedMedicines := L } medicineId).2.alertedMedicines }) := by
  have hfcons : List.find? (fun m => m.id == medicineId) (m0 :: meds) =
      List.find? (fun m => m.id == medicineId) meds :=
    List.find?_cons_of_neg meds (by simp [hne])
  rcases hf : List.find? (fun m => m.id == medicineId) meds with _ | med
  · simp only [takeMedicine, hfcons, hf]
  · simp only [takeMedicine, hfcons, hf,
      updateFirst, hne, Bool.false_eq_true, if_false]
    split_ifs <;> rfl


theorem takeMedicine_head_fail (m : Medicine) (meds : List Medicine)
    (st : BotSettings) (L : List (String × Nat))
    (hlt : m.remainingPills < m.pillsPerDose) :
    takeMedicine { medicines := m :: meds, settings := st, alertedMedicines := L } m.id =
    (TakeResult.failure (msgDepleted m.name),
     { medicines := m :: meds, settings := st, alertedMedicines := L }) := by
  have hfind : List.find? (fun x => x.id == m.id) (m :: meds) = some m :=
    List.find?_cons_of_pos meds (by simp)
  simp only [takeMedicine, hfind, if_pos hlt]

theorem takeMedicine_head_success (m : Medicine) (meds : List Medicine)
    (st : BotSettings) (L : List (String × Nat))
    (hlt : ¬ m.remainingPills < m.pillsPerDose) :
    ∃ a L2,
      takeMedicine { medicines := m :: meds, settings := st, alertedMedicines := L } m.id =
        (TakeResult.success (decMed m) a,
         { medicines := decMed m :: meds, settings := st, alertedMedicines := L2 }) ∧
      (a = none ∨ ∃ k, a = some (decMed m, k)) := by
  have hfind : List.find? (fun x => x.id == m.id) (m :: meds) = some m :=
    List.find?_cons_of_pos meds (by simp)
  simp only [takeMedicine, hfind, if_neg hlt, updateFirst,
    beq_self_eq_true, if_true, decMed]
  split_ifs
  · exact ⟨_, _, rfl, Or.inr ⟨2, rfl⟩⟩
  · exact ⟨_, _, rfl, Or.inr ⟨1, rfl⟩⟩
  · exact ⟨_, _, rfl, Or.inl rfl⟩


theorem takeLoop_frame (m0 : Medicine) (targets : List Medicine) :
    ∀ (meds : List Medicine) (st : BotSettings) (L : List (String × Nat)),
    (∀ t ∈ targets, (m0.id == t.id) = false) →
    takeLoop targets { medicines := m0 :: meds, settings := st, alertedMedicines := L } =
    ((takeLoop targets { medicines := meds, settings := st, alertedMedicines := L }).1,
     (takeLoop targets { medicines := meds, settings := st, alertedMedicines := L }).2.1,
     { medicines := m0 :: (takeLoop targets { medicines := meds, settings := st, alertedMedicines := L }).2.2.medicines,
       settings := (takeLoop targets { medicines := meds, settings := st, alertedMedicines := L }).2.2.settings,
       alertedMedicines := (takeLoop targets { medicines := meds, settings := st, alertedMedicines := L }).2.2.alertedMedicines }) := by
  induction targets with
  | nil =>
    intro meds st L h
    rfl
  | cons t rest ih =>
    intro meds st L h
    have hne := h t (List.mem_cons_self _ _)
    simp only [takeLoop]
    rw [takeMedicine_cons _ _ _ _ _ hne]
    rcases hr : takeMedicine { medicines := meds, settings := st, alertedMedicines := L } t.id with ⟨res, u'⟩
    cases res with
    | failure msg =>
      simp only [hr]
      exact ih u'.medicines u'.settings u'.alertedMedicines
        (fun t' ht' => h t' (List.mem_cons_of_mem _ ht'))
    | success m a =>
      simp only [hr]
      rw [ih u'.medicines u'.settings u'.alertedMedicines
        (fun t' ht' => h t' (List.mem_cons_of_mem _ ht'))]


theorem takeLoop_filter (slot : Nat) (meds : List Medicine) :
    ∀ (st : BotSettings) (L : List (String × Nat)),
    (meds.map (fun m => m.id)).Nodup →
    (takeLoop (meds.filter (slotPred slot)) { medicines := meds, settings := st, alertedMedicines := L }).1 =
      (meds.filter (fullPred slot)).map decMed ∧
    (takeLoop (meds.filter (slotPred slot)) { medicines := meds, settings := st, alertedMedicines := L }).2.2.medicines =
      meds.map (stepFn slot) ∧
    (takeLoop (meds.filter (slotPred slot)) { medicines := meds, settings := st, alertedMedicines := L }).2.2.settings = st ∧
    ((takeLoop (meds.filter (slotPred slot)) { medicines := meds, settings := st, alertedMedicines := L }).2.1.map (fun a => a.1.id)).Sublist
      ((takeLoop (meds.filter (slotPred slot)) { medicines := meds, settings := st, alertedMedicines := L }).1.map (fun m => m.id)) := by
  induction meds with
  | nil =>
    intro st L _
    simp [takeLoop]
  | cons m rest ih =>
    intro st L hnd
    have hm_nin : m.id ∉ rest.map (fun x => x.id) :=
      (List.nodup_cons.mp (by simpa using hnd)).1
    have hnd' : (rest.map (fun x => x.id)).Nodup :=
      (List.nodup_cons.mp (by simpa using hnd)).2
    have hframe_h : ∀ t ∈ rest.filter (slotPred slot),
        (m.id == t.id) = false := by
      intro t ht
      have ht' : t ∈ rest := List.mem_of_mem_filter ht
      have htid : t.id ∈ rest.map (fun x => x.id) :=
        List.mem_map_of_mem _ ht'
      have hne : m.id ≠ t.id := fun he => hm_nin (he ▸ htid)
      simp [hne]
    cases hsp : slotPred slot m with
    | false =>
      have hfc : (m :: rest).filter (slotPred slot) =
          rest.filter (slotPred slot) := by
        simp [List.filter_cons, hsp]
      have hfp : fullPred slot m = false := by
        simp [fullPred, hsp]
      rw [hfc, takeLoop_frame m _ rest st L hframe_h]
      obtain ⟨ih1, ih2, ih3, ih4⟩ := ih st L hnd'
      refine ⟨?_, ?_, ?_, ?_⟩
      · simpa [List.filter_cons, hfp] using ih1
      · simp only []
        rw [ih2, List.map_cons]
        simp [stepFn, hfp]
      · exact ih3
      · exact ih4
    | true =>
      have hfc : (m :: rest).filter (slotPred slot) =
          m :: rest.filter (slotPred slot) := by
        simp [List.filter_cons, hsp]
      rw [hfc]
      by_cases hlt : m.remainingPills < m.pillsPerDose
      · have hfp : fullPred slot m = false := by
          simp only [fullPred, hsp, Bool.true_and,
            decide_eq_false_iff_not]
          omega
        simp only [takeLoop]
        rw [takeMedicine_head_fail m rest st L hlt]
        simp only []
        rw [takeLoop_frame m _ rest st L hframe_h]
        obtain ⟨ih1, ih2, ih3, ih4⟩ := ih st L hnd'
        refine ⟨?_, ?_, ?_, ?_⟩
        · simpa [List.filter_cons, hfp] using ih1
        · simp only []
          rw [ih2, List.map_cons]
          simp [stepFn, hfp]
        · exact ih3
        · exact ih4
      · have hfp : fullPred slot m = true := by
          simp only [fullPred, hsp, Bool.true_and, decide_eq_true_eq]
          omega
        obtain ⟨a, L2, heq, ha⟩ :=
          takeMedicine_head_success m rest st L hlt
        simp only [takeLoop]
        rw [heq]
        simp only []
        have hframe2 : ∀ t ∈ rest.filter (slotPred slot),
            ((decMed m).id == t.id) = false := hframe_h
        rw [takeLoop_frame (decMed m) _ rest st L2 hframe2]
        obtain ⟨ih1, ih2, ih3, ih4⟩ := ih st L2 hnd'
        refine ⟨?_, ?_, ?_, ?_⟩
        · simp only [List.filter_cons, hfp, if_pos, List.map_cons]
          simp only [ih1]
        · simp only []
          rw [ih2, List.map_cons]
          simp [stepFn, hfp]
        · exact ih3
        · rcases ha with rfl | ⟨k, rfl⟩
          · simp only [List.map_cons]
            exact List.Sublist.cons _ (by simpa using ih4)
          · simp only [List.map_cons]
            exact List.Sublist.cons₂ _ (by simpa using ih4)


/-- Claim C6: slot-wide acknowledgment applies dose recording to exactly
the medicines whose `timeSlot` matches and whose `remainingPills > 0`,
in the profile's stored order: every medicine's stock is updated
pointwise (`stepFn`), the successful records are the affordable matches
in stored order, the emitted alerts follow the records' iteration order
(their medicine ids form a sublist of the records' ids), a depleted
medicine (`remainingPills = 0`) is left untouched and produces no
failure record, and when no medicine matches the slot the result set is
empty and the profile unchanged. -/
theorem processTakeMedicine_characterization (trk : TrackerState)
    (uid : String) (u : UserProfile) (slot : Nat)
    (hnd : (u.medicines.map (fun m => m.id)).Nodup) :
    (processTakeMedicine trk uid u slot).2.1.medicines =
      u.medicines.map (stepFn slot) ∧
    (processTakeMedicine trk uid u slot).1.records =
      (u.medicines.filter (fullPred slot)).map decMed ∧
    ((processTakeMedicine trk uid u slot).1.alerts.map
      (fun a => a.1.id)).Sublist
      ((processTakeMedicine trk uid u slot).1.records.map
        (fun m => m.id)) ∧
    (∀ m ∈ u.medicines, m.remainingPills = 0 → stepFn slot m = m) ∧
    (u.medicines.filter (slotPred slot) = [] →
      (processTakeMedicine trk uid u slot).1.records = [] ∧
      (processTakeMedicine trk uid u slot).1.alerts = [] ∧
      (processTakeMedicine trk uid u slot).2.1 = u) := by
  have hstep0 : ∀ m ∈ u.medicines, m.remainingPills = 0 →
      stepFn slot m = m := by
    intro m _ h0
    have hsp : slotPred slot m = false := by
      simp [slotPred, h0]
    simp [stepFn, fullPred, hsp]
  by_cases hemp : u.medicines.filter (slotPred slot) = []
  · have hie : (u.medicines.filter (slotPred slot)).isEmpty = true := by
      simp [hemp]
    have hforall : ∀ m ∈ u.medicines, ¬ slotPred slot m = true :=
      List.filter_eq_nil_iff.mp hemp
    have hmap : u.medicines.map (stepFn slot) = u.medicines := by
      have h1 : u.medicines.map (stepFn slot) = u.medicines.map id :=
        List.map_congr_left (fun m hm => by
          have hsp : slotPred slot m = false := by
            simpa using hforall m hm
          simp [stepFn, fullPred, hsp])
      simpa using h1
    have hfull : u.medicines.filter (fullPred slot) = [] := by
      rw [List.filter_eq_nil_iff]
      intro a ha
      have hsp : slotPred slot a = false := by
        simpa using hforall a ha
      simp [fullPred, hsp]
    refine ⟨?_, ?_, ?_, hstep0, ?_⟩
    · simp only [processTakeMedicine, hie, if_true]
      rw [hmap]
    · simp only [processTakeMedicine, hie, if_true]
      simp [hfull]
    · simp only [processTakeMedicine, hie, if_true]
      simp
    · intro _
      simp only [processTakeMedicine, hie, if_true]
      exact ⟨by trivial, by trivial, by trivial⟩
  · have hie : (u.medicines.filter (slotPred slot)).isEmpty = false := by
      simp [hemp]
    obtain ⟨l1, l2, l3, l4⟩ :=
      takeLoop_filter slot u.medicines u.settings u.alertedMedicines hnd
    refine ⟨?_, ?_, ?_, hstep0, fun h => absurd h hemp⟩
    · simp only [processTakeMedicine, hie, Bool.false_eq_true, if_false]
      exact l2
    · simp only [processTakeMedicine, hie, Bool.false_eq_true, if_false]
      exact l1
    · simp only [processTakeMedicine, hie, Bool.false_eq_true, if_false]
      exact l4

/-- Witness for C6: for the fixture profile (a slot-1 medicine with
stock, a depleted slot-1 medicine, and a slot-2 medicine), processing
slot 1 records exactly one dose and only the first medicine's stock
changes. -/
theorem processTakeMedicine_characterization_witness :
    (processTakeMedicine wTrkArmed wUid wUser 1).1.records =
      [decMed wMedStock12] ∧
    (processTakeMedicine wTrkArmed wUid wUser 1).2.1.medicines =
      [decMed wMedStock12, wMedStock0, wMedSlot2] := by
  have h := processTakeMedicine_characterization wTrkArmed wUid wUser 1
    (by decide)
  refine ⟨?_, ?_⟩
  · rw [h.2.1]
    decide
  · rw [h.1]
    decide

end MedBot
